import Mathlib

/-!
Verification of the sales-dashboard repository.

The repository has two Python modules:
* data_preprocessing.py - a pandas pipeline (column selection, missing-data
  imputation, deduplication, categorical normalization, date-feature
  extraction) feeding a SQLite table named sales;
* app.py - a Flask API running SQL aggregation queries over that table.

This file gives a shallow embedding of both modules.  Numbers are modelled
as exact rationals (Rat); a pandas column is a list of optional cells
(none = NaN/null); the stored SQLite table is a schema (list of column
names) together with typed rows.  SQL SUM returning NULL on empty input is
modelled with Option.
-/

namespace SalesDashboard

/-! ### data_preprocessing.py -/

/-- The fixed allow-list of data_preprocessing.select_columns. -/
def required_cols : List String :=
  ["ORDERNUMBER", "QUANTITYORDERED", "PRICEEACH",
   "ORDERLINENUMBER", "SALES", "ORDERDATE",
   "STATUS", "QTR_ID", "MONTH_ID", "YEAR_ID"]

/-- select_columns: keep only the required columns that are available, in
the allow-list's order (pandas df[available_cols]). Missing columns are
only warned about. -/
def select_columns (cols : List String) : List String :=
  required_cols.filter (fun c => decide (c ∈ cols))

/-- Median as pandas Series.median computes it on the non-null values:
midpoint of the sorted list for odd length, mean of the two middle
elements for even length. -/
def medianQ (l : List Rat) : Rat :=
  if l.length % 2 = 1 then
    (List.insertionSort (· ≤ ·) l).getD (l.length / 2) 0
  else
    ((List.insertionSort (· ≤ ·) l).getD (l.length / 2 - 1) 0 +
      (List.insertionSort (· ≤ ·) l).getD (l.length / 2) 0) / 2

/-- v displaces the current best b when it has a strictly higher
frequency in the column, or the same frequency and a smaller value
(pandas mode() output is sorted ascending, so mode()[0] is the smallest
most frequent value). -/
def strictBeats (full : List String) (v b : String) : Prop :=
  full.count v > full.count b ∨ (full.count v = full.count b ∧ v < b)

instance (full : List String) (v b : String) :
    Decidable (strictBeats full v b) := by
  unfold strictBeats
  exact inferInstance

/-- One step of scanning for mode()[0]. -/
def modeStep (full : List String) (acc : Option String) (v : String) :
    Option String :=
  match acc with
  | none => some v
  | some b => if strictBeats full v b then some v else some b

/-- pandas Series.mode() sorts the modal values ascending, so mode()[0] is
the smallest value among those of maximal frequency.  Returns none on an
empty value list (where mode()[0] would raise). -/
def modeSmallest (l : List String) : Option String :=
  l.foldl (modeStep l) none

/-- Modelled from the spec's words, for comparison with the code: the
first-encountered most frequent value (ties keep the earlier value). -/
def modeFirstEncountered (l : List String) : Option String :=
  l.foldl
    (fun acc v =>
      match acc with
      | none => some v
      | some b => if l.count v > l.count b then some v else some b)
    none

/-- handle_missing_data, numeric loop body: if the column has nulls, fill
them with the column's median (computed over non-null values).  When every
value is null the median is NaN and no actual fill happens; that branch is
not reached by any table with a non-null value. -/
def handle_missing_numeric (col : List (Option Rat)) : List (Option Rat) :=
  if col.any (fun x => x.isNone) then
    if (col.filterMap id).isEmpty then col
    else col.map (fun x => some (x.getD (medianQ (col.filterMap id))))
  else col

/-- handle_missing_data, categorical loop body: if the column has nulls,
fill them with mode()[0]; on a column with no non-null value mode() is
empty and the subscript raises. -/
def handle_missing_categorical (col : List (Option String)) :
    Except String (List (Option String)) :=
  if col.any (fun x => x.isNone) then
    match modeSmallest (col.filterMap id) with
    | some m => Except.ok (col.map (fun x => some (x.getD m)))
    | none => Except.error "IndexError: mode of an all-null column is empty"
  else Except.ok col

/-- handle_missing_data's categorical fill as the spec words it: the
missing entries get the first-encountered most frequent value. -/
def spec_handle_missing_categorical (col : List (Option String)) :
    Except String (List (Option String)) :=
  if col.any (fun x => x.isNone) then
    match modeFirstEncountered (col.filterMap id) with
    | some m => Except.ok (col.map (fun x => some (x.getD m)))
    | none => Except.error "IndexError: mode of an all-null column is empty"
  else Except.ok col

/-- drop_duplicates: keep the first occurrence of each row, delete the
later equal ones. -/
def dropDuplicates {α : Type} [DecidableEq α] : List α → List α
  | [] => []
  | x :: xs => x :: dropDuplicates (xs.filter (fun y => decide (y ≠ x)))
termination_by l => l.length
decreasing_by
  exact Nat.lt_succ_of_le (List.length_filter_le _ _)

/-- A row of the raw table, as handle_duplicates sees it: the tuple of its
retained cells. -/
abbrev Row : Type := List String

/-- handle_duplicates: df.drop_duplicates(), first occurrence kept. -/
def handle_duplicates (rows : List Row) : List Row :=
  dropDuplicates rows

/-- Index of the first occurrence of a value in a list (length if
absent); used to state that deduplication keeps first occurrences in
order. -/
def idxOfD {α : Type} [DecidableEq α] (a : α) : List α → Nat
  | [] => 0
  | x :: xs => if a = x then 0 else idxOfD a xs + 1

/-- A raw dataframe for the normalization step: association list from
column name to the column's cells. -/
abbrev RawFrame : Type := List (String × List String)

/-- Whether the frame has a column of the given name. -/
def hasCol (df : RawFrame) (c : String) : Bool :=
  df.any (fun p => p.1 == c)

/-- Column lookup; none models the KeyError case of df[c]. -/
def getCol (df : RawFrame) (c : String) : Option (List String) :=
  (df.find? (fun p => p.1 == c)).map (fun p => p.2)

/-- In-place column transform df[c] = f(df[c]). -/
def setCol (df : RawFrame) (c : String) (f : List String → List String) :
    RawFrame :=
  df.map (fun p => if p.1 == c then (p.1, f p.2) else p)

/-- normalize_categories: upper-case and trim STATUS when the column is
present, then print the unique STATUS values - that print subscripts
df with STATUS unconditionally, so a frame without STATUS raises
KeyError. -/
def normalize_categories (df : RawFrame) : Except String RawFrame :=
  let df2 :=
    if hasCol df "STATUS" then
      setCol df "STATUS" (fun vs => vs.map (fun s => s.trim.toUpper))
    else df
  match getCol df2 "STATUS" with
  | some _ => Except.ok df2
  | none => Except.error "KeyError: STATUS"

/-- A parsed order date as pandas to_datetime produces it: a calendar
date, whose month is always within 1..12. -/
structure PDate where
  year : Int
  month : Int
  month_ge : 1 ≤ month
  month_le : month ≤ 12

/-- pandas Series.dt.quarter: ((month - 1) // 3) + 1. -/
def quarterOf (d : PDate) : Int :=
  (d.month - 1) / 3 + 1

/-- to_datetime(cell, errors = coerce) at one cell: a null cell or an
unparseable string becomes NaT (none). -/
def parseCell (parse : String → Option PDate) (c : Option String) :
    Option PDate :=
  c.bind parse

/-- extract_date_features: parse ORDERDATE with errors = coerce, then
derive YEAR_ID / MONTH_ID / QTR_ID only when that column is absent from
the frame; a present column is left exactly as it is.  Takes the
ORDERDATE column and the three optional present columns, returns the
three output columns (year, month, quarter). -/
def extract_date_features (parse : String → Option PDate)
    (orderdate : List (Option String))
    (year_col month_col qtr_col : Option (List (Option Int))) :
    List (Option Int) × List (Option Int) × List (Option Int) :=
  let parsed := orderdate.map (parseCell parse)
  ((match year_col with
    | some ys => ys
    | none => parsed.map (fun d => d.map (fun x => x.year))),
   (match month_col with
    | some ms => ms
    | none => parsed.map (fun d => d.map (fun x => x.month))),
   (match qtr_col with
    | some qs => qs
    | none => parsed.map (fun d => d.map quarterOf)))

/-! ### app.py : the stored sales table -/

/-- A row of the stored sales table.  The schema of the stored table is
dynamic, so the row carries a value for every column a query may touch;
the table's schema decides which of them actually exist. -/
structure SRow where
  ORDERNUMBER : Int
  QUANTITYORDERED : Rat
  SALES : Rat
  STATUS : Option String
  YEAR_ID : Int
  MONTH_ID : Int
  CUSTOMERNAME : String
  COUNTRY : String
  PRODUCTLINE : String
deriving DecidableEq

/-- The stored SQLite sales table: its schema (PRAGMA table_info order is
irrelevant to the queries, only membership is tested) and its rows. -/
structure StoredTable where
  schema : List String
  rows : List SRow

/-- SQLite LIMIT: a negative limit means no limit at all. -/
def sqlLimit {α : Type} (n : Int) (l : List α) : List α :=
  if n < 0 then l else l.take n.toNat

/-- Python round(x, 2): round to 2 decimal places (ties on exact
rationals go by Mathlib round; no claim exercises a tie). -/
def round2 (q : Rat) : Rat :=
  (round (q * 100) : Int) / 100

/-! ### app.py : sales_trends -/

/-- Ascending (YEAR_ID, MONTH_ID) comparison used by ORDER BY. -/
def ymLe (a b : Int × Int) : Prop :=
  a.1 < b.1 ∨ (a.1 = b.1 ∧ a.2 ≤ b.2)

/-- Strict ascending (YEAR_ID, MONTH_ID) comparison. -/
def ymLt (a b : Int × Int) : Prop :=
  a.1 < b.1 ∨ (a.1 = b.1 ∧ a.2 < b.2)

instance : DecidableRel ymLe := fun a b => by
  unfold ymLe; exact inferInstance

instance : DecidableRel ymLt := fun a b => by
  unfold ymLt; exact inferInstance

instance : IsTotal (Int × Int) ymLe := by
  constructor
  intro a b
  unfold ymLe
  omega

instance : IsTrans (Int × Int) ymLe := by
  constructor
  intro a b c hab hbc
  unfold ymLe at *
  omega

/-- The distinct (YEAR_ID, MONTH_ID) keys of the table, ascending, as
GROUP BY YEAR_ID, MONTH_ID ... ORDER BY YEAR_ID, MONTH_ID produces
them. -/
def monthKeys (rows : List SRow) : List (Int × Int) :=
  List.insertionSort ymLe ((rows.map (fun r => (r.YEAR_ID, r.MONTH_ID))).dedup)

/-- SUM(SALES) over a group of rows. -/
def sumSales (rows : List SRow) : Rat :=
  (rows.map (fun r => r.SALES)).sum

/-- One monthly group: key and its SUM(SALES). -/
def monthlyTotals (rows : List SRow) : List ((Int × Int) × Rat) :=
  (monthKeys rows).map
    (fun k =>
      (k, sumSales (rows.filter
        (fun r => decide (r.YEAR_ID = k.1 ∧ r.MONTH_ID = k.2)))))

/-- One record of the sales-trends response. -/
structure TrendOut where
  YEAR_ID : Int
  MONTH_ID : Int
  monthly_sales : Rat
  growth_rate : Rat
deriving DecidableEq

/-- The growth loop of sales_trends for the records after the first:
carries the previous record's monthly total; growth is the rounded
percentage change if the previous total is positive, else 0. -/
def trendsAux : Rat → List ((Int × Int) × Rat) → List TrendOut
  | _, [] => []
  | p, c :: rest =>
    ⟨c.1.1, c.1.2, c.2,
      if p > 0 then round2 ((c.2 - p) / p * 100) else 0⟩ :: trendsAux c.2 rest

/-- sales_trends: monthly totals ascending by (year, month), with
month-over-month growth; the first record's growth is 0. -/
def sales_trends (rows : List SRow) : List TrendOut :=
  match monthlyTotals rows with
  | [] => []
  | t :: ts => ⟨t.1.1, t.1.2, t.2, 0⟩ :: trendsAux t.2 ts

/-- The growth loop as the spec words it: growth 0 exactly when the
previous total is 0, otherwise the rounded percentage change. -/
def specTrendsAux : Rat → List ((Int × Int) × Rat) → List TrendOut
  | _, [] => []
  | p, c :: rest =>
    ⟨c.1.1, c.1.2, c.2,
      if p = 0 then 0 else round2 ((c.2 - p) / p * 100)⟩ ::
        specTrendsAux c.2 rest

/-- sales_trends as the spec words it (growth 0 exactly on a zero
baseline). -/
def specSalesTrends (rows : List SRow) : List TrendOut :=
  match monthlyTotals rows with
  | [] => []
  | t :: ts => ⟨t.1.1, t.1.2, t.2, 0⟩ :: specTrendsAux t.2 ts

/-! ### app.py : sales_by_category and the KPIs -/

/-- One record of the sales-by-category response (category is STATUS,
which SQLite lets be NULL; NULLs form their own group). -/
structure CategoryRec where
  category : Option String
  total_sales : Rat
  order_count : Nat
  avg_sales : Rat
deriving DecidableEq

/-- Descending ORDER BY total_sales for category records. -/
def catDesc (a b : CategoryRec) : Prop :=
  b.total_sales ≤ a.total_sales

instance : DecidableRel catDesc := fun a b => by
  unfold catDesc; exact inferInstance

instance : IsTotal CategoryRec catDesc :=
  ⟨fun a b => le_total b.total_sales a.total_sales⟩

instance : IsTrans CategoryRec catDesc :=
  ⟨fun _ _ _ hab hbc => le_trans hbc hab⟩

/-- The rows of one STATUS group. -/
def statusGroup (rows : List SRow) (k : Option String) : List SRow :=
  rows.filter (fun r => decide (r.STATUS = k))

/-- sales_by_category: GROUP BY STATUS with SUM, COUNT and AVG, ORDER BY
total_sales DESC. -/
def sales_by_category (rows : List SRow) : List CategoryRec :=
  List.insertionSort catDesc
    (((rows.map (fun r => r.STATUS)).dedup).map
      (fun k =>
        ⟨k, sumSales (statusGroup rows k), (statusGroup rows k).length,
          sumSales (statusGroup rows k) / (statusGroup rows k).length⟩))

/-- The sum of the total_sales field over the sales-by-category
response. -/
def categoryTotalSum (rows : List SRow) : Rat :=
  ((sales_by_category rows).map (fun r => r.total_sales)).sum

/-- The KPI query's total_revenue: SUM(SALES) over the whole table, which
SQLite reports as NULL when the table has no rows. -/
def kpi_total_revenue (rows : List SRow) : Option Rat :=
  if rows.isEmpty then none else some (sumSales rows)

/-! ### app.py : sales_by_country and product_performance -/

/-- One record of the sales-by-country response: either a data record or
the informational placeholder. -/
inductive CountryRec : Type
  | data (country : String) (total_sales : Rat) (order_count : Nat)
  | message (msg : String)
deriving DecidableEq

/-- Descending ORDER BY total_sales for country records (placeholders
never reach the sort). -/
def countryTotal : CountryRec → Rat
  | CountryRec.data _ t _ => t
  | CountryRec.message _ => 0

/-- Descending order on country records. -/
def countryDesc (a b : CountryRec) : Prop :=
  countryTotal b ≤ countryTotal a

instance : DecidableRel countryDesc := fun a b => by
  unfold countryDesc; exact inferInstance

instance : IsTotal CountryRec countryDesc :=
  ⟨fun a b => le_total (countryTotal b) (countryTotal a)⟩

instance : IsTrans CountryRec countryDesc :=
  ⟨fun _ _ _ hab hbc => le_trans hbc hab⟩

/-- sales_by_country: if the COUNTRY column exists, GROUP BY COUNTRY
ordered by total DESC with LIMIT 10; otherwise a single informational
record. -/
def sales_by_country (t : StoredTable) : List CountryRec :=
  if "COUNTRY" ∈ t.schema then
    sqlLimit 10
      (List.insertionSort countryDesc
        (((t.rows.map (fun r => r.COUNTRY)).dedup).map
          (fun k =>
            CountryRec.data k
              (sumSales (t.rows.filter (fun r => decide (r.COUNTRY = k))))
              (t.rows.filter (fun r => decide (r.COUNTRY = k))).length)))
  else [CountryRec.message "Country data not available in dataset"]

/-- One record of the product-performance response. -/
inductive ProductRec : Type
  | data (product : String) (total_sales : Rat) (total_quantity : Rat)
      (order_count : Nat)
  | message (msg : String)
deriving DecidableEq

/-- total_sales of a product record. -/
def productTotal : ProductRec → Rat
  | ProductRec.data _ t _ _ => t
  | ProductRec.message _ => 0

/-- Descending order on product records. -/
def productDesc (a b : ProductRec) : Prop :=
  productTotal b ≤ productTotal a

instance : DecidableRel productDesc := fun a b => by
  unfold productDesc; exact inferInstance

instance : IsTotal ProductRec productDesc :=
  ⟨fun a b => le_total (productTotal b) (productTotal a)⟩

instance : IsTrans ProductRec productDesc :=
  ⟨fun _ _ _ hab hbc => le_trans hbc hab⟩

/-- product_performance: if the PRODUCTLINE column exists, GROUP BY
PRODUCTLINE ordered by total DESC; otherwise a single informational
record. -/
def product_performance (t : StoredTable) : List ProductRec :=
  if "PRODUCTLINE" ∈ t.schema then
    List.insertionSort productDesc
      (((t.rows.map (fun r => r.PRODUCTLINE)).dedup).map
        (fun k =>
          ProductRec.data k
            (sumSales (t.rows.filter (fun r => decide (r.PRODUCTLINE = k))))
            ((t.rows.filter (fun r => decide (r.PRODUCTLINE = k))).map
              (fun r => r.QUANTITYORDERED)).sum
            ((t.rows.filter (fun r => decide (r.PRODUCTLINE = k))).map
              (fun r => r.ORDERNUMBER)).dedup.length))
  else [ProductRec.message "Product line data not available"]

/-! ### app.py : top_customers -/

/-- One record of the top-customers response: the customer branch when
CUSTOMERNAME exists, the order-number fallback otherwise. -/
inductive TopRec : Type
  | customer (name : String) (total_sales : Rat) (order_count : Nat)
      (avg_order_value : Rat)
  | order (order_id : Int) (total_sales : Rat) (line_items : Nat)
deriving DecidableEq

/-- total_sales of a top-customers record. -/
def topTotal : TopRec → Rat
  | TopRec.customer _ t _ _ => t
  | TopRec.order _ t _ => t

/-- Whether a top-customers record came from the customer branch. -/
def isCustomerRec : TopRec → Bool
  | TopRec.customer _ _ _ _ => true
  | TopRec.order _ _ _ => false

/-- Descending order on top-customers records. -/
def topDesc (a b : TopRec) : Prop :=
  topTotal b ≤ topTotal a

instance : DecidableRel topDesc := fun a b => by
  unfold topDesc; exact inferInstance

instance : IsTotal TopRec topDesc :=
  ⟨fun a b => le_total (topTotal b) (topTotal a)⟩

instance : IsTrans TopRec topDesc :=
  ⟨fun _ _ _ hab hbc => le_trans hbc hab⟩

/-- The customer-branch records (GROUP BY CUSTOMERNAME with SUM, distinct
order count, AVG). -/
def customerRecs (rows : List SRow) : List TopRec :=
  ((rows.map (fun r => r.CUSTOMERNAME)).dedup).map
    (fun k =>
      TopRec.customer k
        (sumSales (rows.filter (fun r => decide (r.CUSTOMERNAME = k))))
        ((rows.filter (fun r => decide (r.CUSTOMERNAME = k))).map
          (fun r => r.ORDERNUMBER)).dedup.length
        (sumSales (rows.filter (fun r => decide (r.CUSTOMERNAME = k))) /
          (rows.filter (fun r => decide (r.CUSTOMERNAME = k))).length))

/-- The fallback records (GROUP BY ORDERNUMBER with SUM and line-item
count). -/
def orderRecs (rows : List SRow) : List TopRec :=
  ((rows.map (fun r => r.ORDERNUMBER)).dedup).map
    (fun k =>
      TopRec.order k
        (sumSales (rows.filter (fun r => decide (r.ORDERNUMBER = k))))
        (rows.filter (fun r => decide (r.ORDERNUMBER = k))).length)

/-- top_customers: group by CUSTOMERNAME when that column exists, else by
ORDERNUMBER; order by total_sales DESC; LIMIT limit (interpolated
directly into the SQL, so SQLite's negative-limit = unlimited rule
applies). -/
def top_customers (t : StoredTable) (limit : Int) : List TopRec :=
  if "CUSTOMERNAME" ∈ t.schema then
    sqlLimit limit (List.insertionSort topDesc (customerRecs t.rows))
  else
    sqlLimit limit (List.insertionSort topDesc (orderRecs t.rows))

/-- The number of distinct groups top_customers aggregates over. -/
def numGroups (t : StoredTable) : Nat :=
  if "CUSTOMERNAME" ∈ t.schema then
    ((t.rows.map (fun r => r.CUSTOMERNAME)).dedup).length
  else
    ((t.rows.map (fun r => r.ORDERNUMBER)).dedup).length

/-! ### Concrete inputs used by counterexamples and witnesses -/

/-- Two stored rows whose first month has a negative total: monthly sales
-100 then 50. -/
def trendRowsNeg : List SRow :=
  [⟨1, 1, -100, none, 2024, 1, "", "", ""⟩,
   ⟨1, 1, 50, none, 2024, 2, "", "", ""⟩]

/-- The spec's example: monthly sales 100, 150, 0, 50. -/
def trendRowsEx : List SRow :=
  [⟨1, 1, 100, none, 2024, 1, "", "", ""⟩,
   ⟨1, 1, 150, none, 2024, 2, "", "", ""⟩,
   ⟨1, 1, 0, none, 2024, 3, "", "", ""⟩,
   ⟨1, 1, 50, none, 2024, 4, "", "", ""⟩]

/-- A single stored row with a STATUS and 30 of sales. -/
def catRowEx : SRow := ⟨7, 2, 30, some "SHIPPED", 2024, 1, "", "", ""⟩

/-- A stored table without the CUSTOMERNAME column, with one row. -/
def topTableNoCust : StoredTable :=
  ⟨["ORDERNUMBER", "SALES"], [⟨7, 1, 30, none, 2024, 1, "", "", ""⟩]⟩

/-- A stored table with the CUSTOMERNAME column, with one row. -/
def topTableCust : StoredTable :=
  ⟨["CUSTOMERNAME", "ORDERNUMBER", "SALES"],
   [⟨7, 1, 30, none, 2024, 1, "Alice", "", ""⟩]⟩

/-- A categorical column with a frequency tie: B appears first, but A is
the smaller of the two most frequent values. -/
def catColTie : List (Option String) :=
  [some "B", some "B", some "A", some "A", none]

/-- A small categorical column with one missing entry. -/
def catColW : List (Option String) := [some "B", none]

/-- A small concrete date parser for witnesses: recognises one date. -/
def parseW : String → Option PDate :=
  fun s =>
    if s = "2003-02-24" then some ⟨2003, 2, by decide, by decide⟩ else none

/-- A concrete ORDERDATE column: one parseable cell, one unparseable
cell, one null cell. -/
def odW : List (Option String) := [some "2003-02-24", some "garbage", none]

/-! ## Theorems -/

/-- Column lookup fails exactly on absent columns. -/
theorem getCol_eq_none_of_hasCol_false (df : RawFrame) (c : String)
    (h : hasCol df c = false) : getCol df c = none := by
  unfold hasCol at h
  unfold getCol
  rw [List.find?_eq_none.mpr]
  · rfl
  · intro p hp
    have := List.any_eq_false.mp h p hp
    simpa using this

/-- C2: the spec says a missing expected column is non-fatal and that
categorical normalization skips an absent STATUS column; but
normalize_categories prints the unique STATUS values unconditionally, so
on a frame without STATUS it raises KeyError instead of completing. -/
theorem normalize_categories_missing_status_fails (df : RawFrame)
    (h : hasCol df "STATUS" = false) :
    normalize_categories df = Except.error "KeyError: STATUS" := by
  unfold normalize_categories
  rw [if_neg (by simp [h])]
  simp only [getCol_eq_none_of_hasCol_false df "STATUS" h]

/-- C2 witness: a concrete frame with no STATUS column makes
normalize_categories fail. -/
theorem normalize_categories_missing_status_fails_witness :
    hasCol ([("SALES", ["10"])] : RawFrame) "STATUS" = false ∧
    normalize_categories ([("SALES", ["10"])] : RawFrame) =
      Except.error "KeyError: STATUS" :=
  ⟨by decide, normalize_categories_missing_status_fails _ (by decide)⟩

/-- C3: a query referencing an optional column that is absent from the
stored schema returns exactly one informational placeholder record:
sales_by_country without COUNTRY, and product_performance without
PRODUCTLINE. -/
theorem missing_optional_column_placeholder (t : StoredTable) :
    ("COUNTRY" ∉ t.schema →
      sales_by_country t =
        [CountryRec.message "Country data not available in dataset"] ∧
      (sales_by_country t).length = 1) ∧
    ("PRODUCTLINE" ∉ t.schema →
      product_performance t =
        [ProductRec.message "Product line data not available"] ∧
      (product_performance t).length = 1) := by
  constructor
  · intro h
    unfold sales_by_country
    rw [if_neg h]
    exact ⟨rfl, rfl⟩
  · intro h
    unfold product_performance
    rw [if_neg h]
    exact ⟨rfl, rfl⟩

/-- C3 witness: on a concrete table lacking both optional columns, both
queries return the single placeholder record. -/
theorem missing_optional_column_placeholder_witness :
    sales_by_country (StoredTable.mk ["ORDERNUMBER", "SALES"] []) =
      [CountryRec.message "Country data not available in dataset"] ∧
    product_performance (StoredTable.mk ["ORDERNUMBER", "SALES"] []) =
      [ProductRec.message "Product line data not available"] :=
  ⟨((missing_optional_column_placeholder _).1 (by decide)).1,
   ((missing_optional_column_placeholder _).2 (by decide)).1⟩

/-- C10: select_columns keeps only allow-listed columns; CUSTOMERNAME,
COUNTRY and PRODUCTLINE are always dropped, so on any table produced by
the pipeline sales_by_country and product_performance take the
placeholder branch and top_customers falls back to grouping by order
number. -/
theorem select_columns_allowlist (cols : List String) (rows : List SRow)
    (n : Int) :
    (∀ c ∈ select_columns cols, c ∈ required_cols)
    ∧ "CUSTOMERNAME" ∉ select_columns cols
    ∧ "COUNTRY" ∉ select_columns cols
    ∧ "PRODUCTLINE" ∉ select_columns cols
    ∧ sales_by_country (StoredTable.mk (select_columns cols) rows) =
        [CountryRec.message "Country data not available in dataset"]
    ∧ product_performance (StoredTable.mk (select_columns cols) rows) =
        [ProductRec.message "Product line data not available"]
    ∧ top_customers (StoredTable.mk (select_columns cols) rows) n =
        sqlLimit n (List.insertionSort topDesc (orderRecs rows)) := by
  have hsub : ∀ c ∈ select_columns cols, c ∈ required_cols := by
    intro c hc
    exact (List.mem_filter.mp hc).1
  have hcust : "CUSTOMERNAME" ∉ select_columns cols := by
    intro h
    have := hsub _ h
    revert this
    decide
  have hctry : "COUNTRY" ∉ select_columns cols := by
    intro h
    have := hsub _ h
    revert this
    decide
  have hprod : "PRODUCTLINE" ∉ select_columns cols := by
    intro h
    have := hsub _ h
    revert this
    decide
  refine ⟨hsub, hcust, hctry, hprod, ?_, ?_, ?_⟩
  · unfold sales_by_country
    rw [if_neg hctry]
  · unfold product_performance
    rw [if_neg hprod]
  · unfold top_customers
    rw [if_neg hcust]

/-- C10 witness: even when the source has CUSTOMERNAME, COUNTRY and
PRODUCTLINE, the projected schema drops them and top_customers takes the
order-number branch. -/
theorem select_columns_allowlist_witness :
    "CUSTOMERNAME" ∉ select_columns ["CUSTOMERNAME", "COUNTRY", "SALES"]
    ∧ top_customers
        (StoredTable.mk
          (select_columns ["CUSTOMERNAME", "COUNTRY", "SALES"]) []) 5 =
        sqlLimit 5 (List.insertionSort topDesc (orderRecs [])) :=
  ⟨(select_columns_allowlist ["CUSTOMERNAME", "COUNTRY", "SALES"] [] 5).2.1,
   (select_columns_allowlist
     ["CUSTOMERNAME", "COUNTRY", "SALES"] [] 5).2.2.2.2.2.2⟩

/-! ### sales_trends lemmas (C1) -/

lemma trendsAux_map_key (p : Rat) (ts : List ((Int × Int) × Rat)) :
    (trendsAux p ts).map
      (fun o => ((o.YEAR_ID, o.MONTH_ID), o.monthly_sales)) = ts := by
  induction ts generalizing p with
  | nil => rfl
  | cons c rest ih => simp [trendsAux, ih]

lemma sales_trends_map_key (rows : List SRow) :
    (sales_trends rows).map
      (fun o => ((o.YEAR_ID, o.MONTH_ID), o.monthly_sales)) =
      monthlyTotals rows := by
  unfold sales_trends
  cases h : monthlyTotals rows with
  | nil => rfl
  | cons t ts => simp [trendsAux_map_key]

lemma ymLe_ne_imp_lt {a b : Int × Int} (h1 : ymLe a b) (h2 : a ≠ b) :
    ymLt a b := by
  unfold ymLe at h1
  unfold ymLt
  have h3 : ¬(a.1 = b.1 ∧ a.2 = b.2) := by
    intro hh
    exact h2 (Prod.ext_iff.mpr hh)
  omega

lemma pairwise_ymLt_of_sorted_nodup :
    ∀ {l : List (Int × Int)}, l.Pairwise ymLe → l.Nodup → l.Pairwise ymLt := by
  intro l hs hn
  induction l with
  | nil => exact List.Pairwise.nil
  | cons a l ih =>
    rcases List.pairwise_cons.mp hs with ⟨ha, hs'⟩
    rcases List.nodup_cons.mp hn with ⟨hna, hn'⟩
    refine List.Pairwise.cons ?_ (ih hs' hn')
    intro b hb
    refine ymLe_ne_imp_lt (ha b hb) ?_
    intro he
    exact hna (by rw [he]; exact hb)

lemma monthKeys_pairwise (rows : List SRow) :
    (monthKeys rows).Pairwise ymLt := by
  apply pairwise_ymLt_of_sorted_nodup
  · exact List.sorted_insertionSort ymLe _
  · exact ((List.perm_insertionSort ymLe _).nodup_iff).mpr
      (List.nodup_dedup _)

lemma monthlyTotals_map_fst (rows : List SRow) :
    (monthlyTotals rows).map Prod.fst = monthKeys rows := by
  unfold monthlyTotals
  rw [List.map_map]
  simp [Function.comp_def]

lemma trendsAux_head (p : Rat) (ts : List ((Int × Int) × Rat))
    (b : TrendOut) (hb : (trendsAux p ts)[0]? = some b) :
    b.growth_rate =
      if p ≤ 0 then 0
      else round2 ((b.monthly_sales - p) / p * 100) := by
  cases ts with
  | nil => simp [trendsAux] at hb
  | cons c rest =>
    simp only [trendsAux, List.getElem?_cons_zero, Option.some.injEq] at hb
    subst hb
    split_ifs with h1 h2
    · linarith
    · rfl
    · rfl
    · linarith

lemma trendsAux_growth (p : Rat) (ts : List ((Int × Int) × Rat)) :
    ∀ (i : Nat) (a b : TrendOut), (trendsAux p ts)[i]? = some a →
      (trendsAux p ts)[i + 1]? = some b →
      b.growth_rate =
        if a.monthly_sales ≤ 0 then 0
        else round2
          ((b.monthly_sales - a.monthly_sales) / a.monthly_sales * 100) := by
  induction ts generalizing p with
  | nil => intro i a b ha _; simp [trendsAux] at ha
  | cons c rest ih =>
    intro i a b ha hb
    cases i with
    | zero =>
      simp only [trendsAux, List.getElem?_cons_zero, Option.some.injEq] at ha
      simp only [trendsAux, List.getElem?_cons_succ] at hb
      subst ha
      exact trendsAux_head c.2 rest b hb
    | succ j =>
      simp only [trendsAux, List.getElem?_cons_succ] at ha hb
      exact ih c.2 j a b ha hb

/-- C1 counterexample: the claim says growth is 0 exactly when the
previous month's total is 0; but the code tests prev > 0, so a negative
previous total yields growth 0 where the claimed formula gives -150. -/
theorem sales_trends_claim_counterexample :
    sales_trends trendRowsNeg ≠ specSalesTrends trendRowsNeg := by
  norm_num [sales_trends, specSalesTrends, monthlyTotals, monthKeys, sumSales,
    trendsAux, specTrendsAux, trendRowsNeg, round2, round_eq, ymLe,
    List.insertionSort, List.orderedInsert]

/-- C1 amended: sales_trends returns the monthly totals in strictly
ascending (year, month) order; the first record's growth is 0; every
later record's growth is 0 when the previous total is nonpositive (not
just zero) and the 2-decimal rounded percentage change otherwise. -/
theorem sales_trends_spec (rows : List SRow) :
    List.Pairwise
      (fun a b : TrendOut =>
        ymLt (a.YEAR_ID, a.MONTH_ID) (b.YEAR_ID, b.MONTH_ID))
      (sales_trends rows)
    ∧ (sales_trends rows).map
        (fun o => ((o.YEAR_ID, o.MONTH_ID), o.monthly_sales)) =
        monthlyTotals rows
    ∧ (∀ o : TrendOut, (sales_trends rows)[0]? = some o →
        o.growth_rate = 0)
    ∧ (∀ (i : Nat) (a b : TrendOut), (sales_trends rows)[i]? = some a →
        (sales_trends rows)[i + 1]? = some b →
        b.growth_rate =
          if a.monthly_sales ≤ 0 then 0
          else round2
            ((b.monthly_sales - a.monthly_sales) / a.monthly_sales * 100)) := by
  refine ⟨?_, sales_trends_map_key rows, ?_, ?_⟩
  · have h2 := congrArg (List.map Prod.fst) (sales_trends_map_key rows)
    rw [List.map_map] at h2
    rw [monthlyTotals_map_fst] at h2
    have h1 : (sales_trends rows).map
        (fun o => (o.YEAR_ID, o.MONTH_ID)) = monthKeys rows := h2
    have h3 := monthKeys_pairwise rows
    rw [← h1] at h3
    exact List.pairwise_map.mp h3
  · intro o ho
    unfold sales_trends at ho
    cases h : monthlyTotals rows with
    | nil => rw [h] at ho; simp at ho
    | cons t ts =>
      rw [h] at ho
      simp only [List.getElem?_cons_zero, Option.some.injEq] at ho
      rw [← ho]
  · intro i a b ha hb
    unfold sales_trends at ha hb
    cases h : monthlyTotals rows with
    | nil => rw [h] at ha; simp at ha
    | cons t ts =>
      rw [h] at ha hb
      cases i with
      | zero =>
        simp only [List.getElem?_cons_zero, Option.some.injEq] at ha
        simp only [List.getElem?_cons_succ] at hb
        subst ha
        exact trendsAux_head t.2 ts b hb
      | succ j =>
        simp only [List.getElem?_cons_succ] at ha hb
        exact trendsAux_growth t.2 ts j a b ha hb

/-- C1 witness: on monthly sales 100, 150, 0, 50 the growth sequence is
0, 50, -100, 0, and the first record's growth is 0 by the theorem. -/
theorem sales_trends_spec_witness :
    sales_trends trendRowsEx =
      [⟨2024, 1, 100, 0⟩, ⟨2024, 2, 150, 50⟩,
       ⟨2024, 3, 0, -100⟩, ⟨2024, 4, 50, 0⟩]
    ∧ (⟨2024, 1, 100, 0⟩ : TrendOut).growth_rate = 0 :=
  ⟨by
    norm_num [sales_trends, monthlyTotals, monthKeys, sumSales,
      trendsAux, trendRowsEx, round2, round_eq, ymLe,
      List.insertionSort, List.orderedInsert],
   (sales_trends_spec trendRowsEx).2.2.1 ⟨2024, 1, 100, 0⟩
    (by
      norm_num [sales_trends, monthlyTotals, monthKeys, sumSales,
        trendsAux, trendRowsEx, ymLe,
        List.insertionSort, List.orderedInsert])⟩

/-! ### Partition-sum lemmas (C8) -/

lemma sum_map_ite_eq {K : Type} [DecidableEq K] (v : Rat) :
    ∀ (keys : List K) (k0 : K), k0 ∈ keys → keys.Nodup →
      (keys.map (fun k => if k0 = k then v else 0)).sum = v := by
  intro keys
  induction keys with
  | nil => intro k0 h _; simp at h
  | cons a rest ih =>
    intro k0 hmem hnd
    rcases List.nodup_cons.mp hnd with ⟨hna, hnd'⟩
    rcases List.mem_cons.mp hmem with rfl | hmem'
    · simp only [List.map_cons, List.sum_cons, if_pos rfl]
      have hz : (rest.map (fun k => if k0 = k then v else (0 : Rat))).sum = 0 := by
        apply List.sum_eq_zero
        intro x hx
        rcases List.mem_map.mp hx with ⟨k, hk, rfl⟩
        rw [if_neg]
        intro he
        exact hna (he ▸ hk)
      rw [hz, add_zero]
      simp
    · have hne : k0 ≠ a := by
        intro he
        exact hna (he ▸ hmem')
      simp only [List.map_cons, List.sum_cons, if_neg hne]
      rw [ih k0 hmem' hnd', zero_add]

lemma sum_fibers {α K : Type} [DecidableEq K] (key : α → K) (val : α → Rat) :
    ∀ (rows : List α) (keys : List K), keys.Nodup →
      (∀ r ∈ rows, key r ∈ keys) →
      (keys.map (fun k =>
        ((rows.filter (fun r => decide (key r = k))).map val).sum)).sum =
        (rows.map val).sum := by
  intro rows
  induction rows with
  | nil =>
    intro keys _ _
    simp only [List.filter_nil, List.map_nil, List.sum_nil]
    apply List.sum_eq_zero
    intro x hx
    rcases List.mem_map.mp hx with ⟨k, _, rfl⟩
    rfl
  | cons r rows ih =>
    intro keys hnd hkeys
    have hr : key r ∈ keys := hkeys r (List.mem_cons_self r rows)
    have hrest : ∀ x ∈ rows, key x ∈ keys := fun x hx =>
      hkeys x (List.mem_cons_of_mem r hx)
    have hfib : ∀ k,
        ((List.filter (fun x => decide (key x = k)) (r :: rows)).map val).sum =
          ((rows.filter (fun x => decide (key x = k))).map val).sum +
            (if key r = k then val r else 0) := by
      intro k
      by_cases hk : key r = k
      · rw [if_pos hk, List.filter_cons_of_pos (by simp [hk])]
        simp only [List.map_cons, List.sum_cons]
        ring
      · rw [if_neg hk, List.filter_cons_of_neg (by simp [hk]), add_zero]
    simp only [hfib]
    rw [List.sum_map_add]
    rw [ih keys hnd hrest, sum_map_ite_eq (val r) keys (key r) hr hnd]
    simp only [List.map_cons, List.sum_cons]
    ring

/-- C8 counterexample: on the empty stored table the sales-by-category
totals sum to 0 while the KPI query's SUM(SALES) is NULL, so the reported
total_revenue is not that sum. -/
theorem category_kpi_claim_counterexample :
    ¬ (kpi_total_revenue ([] : List SRow) =
        some (categoryTotalSum [])) := by
  decide

/-- C8 amended: on every stored table with at least one row, the sum of
total_sales over the sales-by-category records equals the total_revenue
the KPI query reports. -/
theorem category_totals_sum_eq_total_revenue (rows : List SRow)
    (h : rows ≠ []) :
    kpi_total_revenue rows = some (categoryTotalSum rows) := by
  unfold kpi_total_revenue
  rw [if_neg (by simpa using h)]
  have key : categoryTotalSum rows = sumSales rows := by
    unfold categoryTotalSum sales_by_category
    rw [List.Perm.sum_eq
      (List.Perm.map _ (List.perm_insertionSort catDesc _))]
    rw [List.map_map]
    exact sum_fibers (fun r => r.STATUS) (fun r => r.SALES) rows _
      (List.nodup_dedup _)
      (fun r hr => List.mem_dedup.mpr (List.mem_map_of_mem _ hr))
  rw [key]

/-- C8 witness: a one-row table, where both sides are defined and
equal. -/
theorem category_totals_sum_eq_total_revenue_witness :
    ([catRowEx] : List SRow) ≠ [] ∧
    kpi_total_revenue [catRowEx] = some (categoryTotalSum [catRowEx]) :=
  ⟨by decide, category_totals_sum_eq_total_revenue [catRowEx] (by decide)⟩

/-! ### top_customers (C9) -/

/-- C9 counterexample: the claim quantifies over every integer limit, but
the limit is interpolated into the SQL, and SQLite treats a negative
LIMIT as no limit: with limit -1 and one group, one record is returned,
which is not at most -1. -/
theorem top_customers_claim_counterexample :
    ¬ (((top_customers topTableNoCust (-1)).length : Int) ≤ -1) := by
  decide

/-- C9 amended: for every nonnegative integer limit n, top_customers
returns at most n records, exactly n when at least n distinct groups
exist, sorted descending by total sales; records come from the customer
grouping when CUSTOMERNAME is present and from the order grouping
otherwise. -/
theorem top_customers_spec (t : StoredTable) (n : Int) (h : 0 ≤ n) :
    (top_customers t n).length ≤ n.toNat
    ∧ (n.toNat ≤ numGroups t → (top_customers t n).length = n.toNat)
    ∧ List.Pairwise topDesc (top_customers t n)
    ∧ ("CUSTOMERNAME" ∈ t.schema →
        ∀ r ∈ top_customers t n, isCustomerRec r = true)
    ∧ ("CUSTOMERNAME" ∉ t.schema →
        ∀ r ∈ top_customers t n, isCustomerRec r = false) := by
  have hnneg : ¬ n < 0 := not_lt.mpr h
  unfold top_customers numGroups sqlLimit
  by_cases hc : "CUSTOMERNAME" ∈ t.schema
  · rw [if_pos hc, if_pos hc, if_neg hnneg]
    refine ⟨?_, ?_, ?_, ?_, ?_⟩
    · rw [List.length_take]
      exact min_le_left _ _
    · intro hle
      rw [List.length_take, List.length_insertionSort]
      unfold customerRecs
      rw [List.length_map]
      exact Nat.min_eq_left hle
    · exact List.Pairwise.sublist (List.take_sublist _ _)
        (List.sorted_insertionSort topDesc _)
    · intro _ r hr
      have hr2 : r ∈ List.insertionSort topDesc (customerRecs t.rows) :=
        List.mem_of_mem_take hr
      rw [List.mem_insertionSort] at hr2
      unfold customerRecs at hr2
      rcases List.mem_map.mp hr2 with ⟨k, _, rfl⟩
      rfl
    · intro hcontra
      exact absurd hc hcontra
  · rw [if_neg hc, if_neg hc, if_neg hnneg]
    refine ⟨?_, ?_, ?_, ?_, ?_⟩
    · rw [List.length_take]
      exact min_le_left _ _
    · intro hle
      rw [List.length_take, List.length_insertionSort]
      unfold orderRecs
      rw [List.length_map]
      exact Nat.min_eq_left hle
    · exact List.Pairwise.sublist (List.take_sublist _ _)
        (List.sorted_insertionSort topDesc _)
    · intro hcontra
      exact absurd hcontra hc
    · intro _ r hr
      have hr2 : r ∈ List.insertionSort topDesc (orderRecs t.rows) :=
        List.mem_of_mem_take hr
      rw [List.mem_insertionSort] at hr2
      unfold orderRecs at hr2
      rcases List.mem_map.mp hr2 with ⟨k, _, rfl⟩
      rfl

/-- C9 witness: a concrete table with the customer column, limit 3. -/
theorem top_customers_spec_witness :
    (0 : Int) ≤ 3
    ∧ (top_customers topTableCust 3).length ≤ (3 : Int).toNat
    ∧ List.Pairwise topDesc (top_customers topTableCust 3) :=
  ⟨by decide, (top_customers_spec topTableCust 3 (by decide)).1,
   (top_customers_spec topTableCust 3 (by decide)).2.2.1⟩

/-! ### handle_duplicates (C7) -/

lemma dropDuplicates_sublist {α : Type} [DecidableEq α] :
    ∀ l : List α, List.Sublist (dropDuplicates l) l := by
  intro l
  induction l using dropDuplicates.induct with
  | case1 => rw [dropDuplicates]
  | case2 x xs ih =>
    rw [dropDuplicates]
    exact List.Sublist.cons₂ x (ih.trans (List.filter_sublist xs))

lemma mem_dropDuplicates {α : Type} [DecidableEq α] {a : α} :
    ∀ {l : List α}, a ∈ dropDuplicates l ↔ a ∈ l := by
  intro l
  constructor
  · intro h
    exact (dropDuplicates_sublist l).subset h
  · induction l using dropDuplicates.induct with
    | case1 => intro h; simp at h
    | case2 x xs ih =>
      intro h
      rw [dropDuplicates]
      rcases List.mem_cons.mp h with rfl | h'
      · exact List.mem_cons_self _ _
      · by_cases hax : a = x
        · rw [hax]; exact List.mem_cons_self _ _
        · refine List.mem_cons_of_mem x (ih (List.mem_filter.mpr ⟨h', ?_⟩))
          simpa using hax

lemma dropDuplicates_nodup {α : Type} [DecidableEq α] :
    ∀ l : List α, (dropDuplicates l).Nodup := by
  intro l
  induction l using dropDuplicates.induct with
  | case1 => rw [dropDuplicates]; exact List.nodup_nil
  | case2 x xs ih =>
    rw [dropDuplicates]
    refine List.nodup_cons.mpr ⟨?_, ih⟩
    intro hmem
    have hf := (dropDuplicates_sublist _).subset hmem
    have hx : x ≠ x := by simpa using List.of_mem_filter hf
    exact hx rfl

lemma idxOfD_cons_self {α : Type} [DecidableEq α] (a : α) (l : List α) :
    idxOfD a (a :: l) = 0 := by
  simp [idxOfD]

lemma idxOfD_cons_ne {α : Type} [DecidableEq α] {a b : α} (l : List α)
    (h : a ≠ b) : idxOfD a (b :: l) = idxOfD a l + 1 := by
  simp [idxOfD, h]

lemma idxOfD_filter_lt {α : Type} [DecidableEq α] (p : α → Bool) :
    ∀ (xs : List α) (a b : α), a ∈ xs.filter p → b ∈ xs.filter p →
      idxOfD a (xs.filter p) < idxOfD b (xs.filter p) →
      idxOfD a xs < idxOfD b xs := by
  intro xs
  induction xs with
  | nil => intro a b ha _ _; simp at ha
  | cons y ys ih =>
    intro a b ha hb hlt
    by_cases hy : p y
    · rw [List.filter_cons_of_pos hy] at ha hb hlt
      by_cases hay : a = y
      · subst hay
        have hbne : b ≠ a := by
          intro he
          subst he
          simp at hlt
        rw [idxOfD_cons_self] at hlt ⊢
        rw [idxOfD_cons_ne _ hbne]
        exact Nat.succ_pos _
      · have ha' : a ∈ ys.filter p := by
          rcases List.mem_cons.mp ha with h | h
          · exact absurd h hay
          · exact h
        rw [idxOfD_cons_ne _ hay] at hlt
        by_cases hby : b = y
        · subst hby
          rw [idxOfD_cons_self] at hlt
          exact absurd hlt (Nat.not_lt_zero _)
        · have hb' : b ∈ ys.filter p := by
            rcases List.mem_cons.mp hb with h | h
            · exact absurd h hby
            · exact h
          rw [idxOfD_cons_ne _ hby] at hlt
          have h2 := ih a b ha' hb' (Nat.lt_of_succ_lt_succ hlt)
          rw [idxOfD_cons_ne _ hay, idxOfD_cons_ne _ hby]
          exact Nat.succ_lt_succ h2
    · rw [List.filter_cons_of_neg hy] at ha hb hlt
      have hpa := List.of_mem_filter ha
      have hpb := List.of_mem_filter hb
      have hane : a ≠ y := by
        intro he
        exact hy (he ▸ hpa)
      have hbne : b ≠ y := by
        intro he
        exact hy (he ▸ hpb)
      have h2 := ih a b ha hb hlt
      rw [idxOfD_cons_ne _ hane, idxOfD_cons_ne _ hbne]
      exact Nat.succ_lt_succ h2

lemma dropDuplicates_pairwise_idxOfD {α : Type} [DecidableEq α] :
    ∀ l : List α,
      List.Pairwise (fun a b => idxOfD a l < idxOfD b l)
        (dropDuplicates l) := by
  intro l
  induction l using dropDuplicates.induct with
  | case1 => rw [dropDuplicates]; exact List.Pairwise.nil
  | case2 x xs ih =>
    rw [dropDuplicates]
    refine List.Pairwise.cons ?_ ?_
    · intro b hb
      have hbf := (dropDuplicates_sublist _).subset hb
      have hbx : b ≠ x := by simpa using List.of_mem_filter hbf
      rw [idxOfD_cons_self, idxOfD_cons_ne _ hbx]
      exact Nat.succ_pos _
    · refine List.Pairwise.imp_of_mem ?_ ih
      intro a b ha hb hlt
      have ha' := (dropDuplicates_sublist _).subset ha
      have hb' := (dropDuplicates_sublist _).subset hb
      have hax : a ≠ x := by simpa using List.of_mem_filter ha'
      have hbx : b ≠ x := by simpa using List.of_mem_filter hb'
      have h2 := idxOfD_filter_lt _ xs a b ha' hb' hlt
      rw [idxOfD_cons_ne _ hax, idxOfD_cons_ne _ hbx]
      exact Nat.succ_lt_succ h2

/-- C7: handle_duplicates returns a duplicate-free table, never longer
than its input, that is a sublist of the input (so relative order is
preserved); membership is preserved, and the kept rows appear in
strictly increasing order of their first position in the input, i.e. the
first occurrence of each distinct row is the one kept. -/
theorem handle_duplicates_spec (rows : List Row) :
    (handle_duplicates rows).Nodup
    ∧ (handle_duplicates rows).length ≤ rows.length
    ∧ List.Sublist (handle_duplicates rows) rows
    ∧ (∀ x, x ∈ handle_duplicates rows ↔ x ∈ rows)
    ∧ List.Pairwise (fun a b => idxOfD a rows < idxOfD b rows)
        (handle_duplicates rows) :=
  ⟨dropDuplicates_nodup rows,
   (dropDuplicates_sublist rows).length_le,
   dropDuplicates_sublist rows,
   fun _ => mem_dropDuplicates,
   dropDuplicates_pairwise_idxOfD rows⟩

/-- C7 witness: a concrete table with one duplicated row. -/
theorem handle_duplicates_spec_witness :
    handle_duplicates [["A"], ["A"], ["B"]] = [["A"], ["B"]]
    ∧ (handle_duplicates [["A"], ["A"], ["B"]]).Nodup :=
  ⟨by simp [handle_duplicates, dropDuplicates, List.filter_cons],
   (handle_duplicates_spec [["A"], ["A"], ["B"]]).1⟩

/-! ### Categorical mode fill (C5) -/

lemma strictBeats_irrefl (full : List String) (v : String) :
    ¬ strictBeats full v v := by
  unfold strictBeats
  simp

lemma strictBeats_trans {full : List String} {a b c : String}
    (h1 : strictBeats full a b) (h2 : strictBeats full b c) :
    strictBeats full a c := by
  unfold strictBeats at *
  rcases h1 with h1 | ⟨h1e, h1lt⟩ <;> rcases h2 with h2 | ⟨h2e, h2lt⟩
  · exact Or.inl (by omega)
  · exact Or.inl (by omega)
  · exact Or.inl (by omega)
  · exact Or.inr ⟨by omega, lt_trans h1lt h2lt⟩

lemma strictBeats_of_not_of (full : List String) (v b r : String)
    (h1 : ¬ strictBeats full v b) (h2 : strictBeats full v r) :
    strictBeats full b r := by
  unfold strictBeats at *
  rw [not_or] at h1
  have hle : full.count v ≤ full.count b := by omega
  rcases h2 with h2 | ⟨h2e, h2lt⟩
  · exact Or.inl (by omega)
  · by_cases heq : full.count v = full.count b
    · have hvb : ¬ v < b := fun hlt => h1.2 ⟨heq, hlt⟩
      have hbv : b ≤ v := le_of_not_lt hvb
      exact Or.inr ⟨by omega, lt_of_le_of_lt hbv h2lt⟩
    · exact Or.inl (by omega)

lemma modeFold_invariant (full : List String) :
    ∀ (todo : List String) (b : String),
      ∃ r, List.foldl (modeStep full) (some b) todo = some r
        ∧ (r = b ∨ r ∈ todo)
        ∧ (∀ v, (v = b ∨ v ∈ todo) → ¬ strictBeats full v r) := by
  intro todo
  induction todo with
  | nil =>
    intro b
    refine ⟨b, rfl, Or.inl rfl, ?_⟩
    intro v hv
    rcases hv with rfl | hv
    · exact strictBeats_irrefl full v
    · simp at hv
  | cons v rest ih =>
    intro b
    rw [List.foldl_cons]
    by_cases hvb : strictBeats full v b
    · have hst : modeStep full (some b) v = some v := by
        simp [modeStep, hvb]
      rw [hst]
      obtain ⟨r, hr, hmem, hbeats⟩ := ih v
      refine ⟨r, hr, ?_, ?_⟩
      · rcases hmem with rfl | hm
        · exact Or.inr (List.mem_cons_self _ _)
        · exact Or.inr (List.mem_cons_of_mem _ hm)
      · intro w hw
        rcases hw with rfl | hw
        · intro hbr
          exact hbeats v (Or.inl rfl) (strictBeats_trans hvb hbr)
        · rcases List.mem_cons.mp hw with rfl | hw'
          · exact hbeats w (Or.inl rfl)
          · exact hbeats w (Or.inr hw')
    · have hst : modeStep full (some b) v = some b := by
        simp [modeStep, hvb]
      rw [hst]
      obtain ⟨r, hr, hmem, hbeats⟩ := ih b
      refine ⟨r, hr, ?_, ?_⟩
      · rcases hmem with rfl | hm
        · exact Or.inl rfl
        · exact Or.inr (List.mem_cons_of_mem _ hm)
      · intro w hw
        rcases hw with rfl | hw
        · exact hbeats w (Or.inl rfl)
        · rcases List.mem_cons.mp hw with rfl | hw'
          · intro hvr
            exact hbeats b (Or.inl rfl) (strictBeats_of_not_of full w b r hvb hvr)
          · exact hbeats w (Or.inr hw')

lemma modeSmallest_spec (l : List String) (h : l ≠ []) :
    ∃ m, modeSmallest l = some m ∧ m ∈ l
      ∧ (∀ v ∈ l, l.count v ≤ l.count m)
      ∧ (∀ v ∈ l, l.count v = l.count m → m ≤ v) := by
  cases l with
  | nil => exact absurd rfl h
  | cons x rest =>
    unfold modeSmallest
    rw [List.foldl_cons]
    have hx : modeStep (x :: rest) none x = some x := rfl
    rw [hx]
    obtain ⟨r, hr, hmem, hbeats⟩ := modeFold_invariant (x :: rest) rest x
    have hball : ∀ v ∈ x :: rest, ¬ strictBeats (x :: rest) v r := by
      intro v hv
      rcases List.mem_cons.mp hv with rfl | hv'
      · exact hbeats v (Or.inl rfl)
      · exact hbeats v (Or.inr hv')
    refine ⟨r, hr, ?_, ?_, ?_⟩
    · rcases hmem with rfl | hm
      · exact List.mem_cons_self _ _
      · exact List.mem_cons_of_mem _ hm
    · intro v hv
      have hnb := hball v hv
      unfold strictBeats at hnb
      rw [not_or] at hnb
      omega
    · intro v hv hcnt
      have hnb := hball v hv
      unfold strictBeats at hnb
      rw [not_or] at hnb
      have hnlt : ¬ v < r := fun hlt => hnb.2 ⟨hcnt, hlt⟩
      exact le_of_not_lt hnlt

/-- C5 counterexample: on a column whose two most frequent values B and A
tie, pandas mode()[0] is the sorted-first value A, not the
first-encountered value B the claim describes. -/
theorem handle_missing_categorical_claim_counterexample :
    handle_missing_categorical catColTie ≠
      spec_handle_missing_categorical catColTie := by
  have hAB : ("A" : String) < "B" := by
    rw [String.lt_iff_toList_lt]; decide
  have hBB : ¬ ("B" : String) < "B" := by
    rw [String.lt_iff_toList_lt]; decide
  have hAA : ¬ ("A" : String) < "A" := by
    rw [String.lt_iff_toList_lt]; decide
  have h1 : handle_missing_categorical catColTie =
      Except.ok [some "B", some "B", some "A", some "A", some "A"] := by
    simp only [handle_missing_categorical, catColTie, modeSmallest,
      List.filterMap_cons, List.filterMap_nil, List.any_cons, List.any_nil,
      List.foldl_cons, List.foldl_nil]
    simp [modeStep, strictBeats, List.count_cons, List.count_nil, hAB, hBB, hAA]
  have h2 : spec_handle_missing_categorical catColTie =
      Except.ok [some "B", some "B", some "A", some "A", some "B"] := by
    simp only [spec_handle_missing_categorical, catColTie, modeFirstEncountered,
      List.filterMap_cons, List.filterMap_nil, List.any_cons, List.any_nil,
      List.foldl_cons, List.foldl_nil]
    simp [List.count_cons, List.count_nil]
  intro hcontra
  rw [h1, h2] at hcontra
  exact absurd (Except.ok.inj hcontra) (by decide)

/-- C5 amended: on a categorical column with at least one non-missing
entry, the fill succeeds, keeps non-missing entries unchanged and
replaces each missing entry with the column's mode, where frequency ties
are broken by the smallest value (ascending sort order, pandas
mode()[0]), not by first encounter. -/
theorem handle_missing_categorical_spec (col : List (Option String))
    (h : col.filterMap id ≠ []) :
    ∃ out, handle_missing_categorical col = Except.ok out
      ∧ out.length = col.length
      ∧ (∀ (i : Nat) (v : String), col[i]? = some (some v) →
          out[i]? = some (some v))
      ∧ (∀ i : Nat, col[i]? = some none →
          ∃ f, out[i]? = some (some f)
            ∧ f ∈ col.filterMap id
            ∧ (∀ v ∈ col.filterMap id,
                (col.filterMap id).count v ≤ (col.filterMap id).count f)
            ∧ (∀ v ∈ col.filterMap id,
                (col.filterMap id).count v = (col.filterMap id).count f →
                  f ≤ v)) := by
  unfold handle_missing_categorical
  by_cases hany : col.any (fun x => x.isNone)
  · rw [if_pos hany]
    obtain ⟨m, hm, hmem, hmax, hmin⟩ := modeSmallest_spec _ h
    rw [hm]
    refine ⟨col.map (fun x => some (x.getD m)), rfl, by simp, ?_, ?_⟩
    · intro i v hi
      rw [List.getElem?_map, hi]
      rfl
    · intro i hi
      rw [List.getElem?_map, hi]
      exact ⟨m, rfl, hmem, hmax, hmin⟩
  · rw [if_neg hany]
    refine ⟨col, rfl, rfl, ?_, ?_⟩
    · intro i v hi
      exact hi
    · intro i hi
      exfalso
      rw [Bool.not_eq_true, List.any_eq_false] at hany
      have hmem : (none : Option String) ∈ col := List.getElem?_mem hi
      simpa using hany none hmem

/-- C5 witness: a concrete two-cell column; the fill succeeds, and the
concrete result is B filled in for the null. -/
theorem handle_missing_categorical_spec_witness :
    catColW.filterMap id ≠ []
    ∧ handle_missing_categorical catColW = Except.ok [some "B", some "B"]
    ∧ (∃ out, handle_missing_categorical catColW = Except.ok out
        ∧ out.length = catColW.length) := by
  refine ⟨by decide, ?_, ?_⟩
  · simp only [handle_missing_categorical, catColW, modeSmallest,
      List.filterMap_cons, List.filterMap_nil, List.any_cons, List.any_nil,
      List.foldl_cons, List.foldl_nil]
    simp [modeStep]
  obtain ⟨out, h1, h2, _⟩ := handle_missing_categorical_spec catColW (by decide)
  exact ⟨out, h1, h2⟩

/-! ### extract_date_features (C4) -/

/-- C4: date-feature extraction parses ORDERDATE (a null or unparseable
cell yields a null date; rows are retained, the column lengths are
unchanged); YEAR_ID / MONTH_ID / QTR_ID are derived from the parsed date
only when the column is absent, any present column is returned exactly
as it was (never overwritten); derived months lie in 1..12 and the
derived quarter is ((month - 1) / 3) + 1. -/
theorem extract_date_features_spec (parse : String → Option PDate)
    (orderdate : List (Option String))
    (ycol mcol qcol : Option (List (Option Int))) :
    (∀ ys, ycol = some ys →
        (extract_date_features parse orderdate ycol mcol qcol).1 = ys)
    ∧ (∀ ms, mcol = some ms →
        (extract_date_features parse orderdate ycol mcol qcol).2.1 = ms)
    ∧ (∀ qs, qcol = some qs →
        (extract_date_features parse orderdate ycol mcol qcol).2.2 = qs)
    ∧ (ycol = none →
        (extract_date_features parse orderdate ycol mcol qcol).1.length =
            orderdate.length
        ∧ ∀ (i : Nat) (c : Option String), orderdate[i]? = some c →
            (extract_date_features parse orderdate ycol mcol qcol).1[i]? =
              some ((parseCell parse c).map (fun d => d.year)))
    ∧ (mcol = none →
        (extract_date_features parse orderdate ycol mcol qcol).2.1.length =
            orderdate.length
        ∧ (∀ (i : Nat) (c : Option String), orderdate[i]? = some c →
            (extract_date_features parse orderdate ycol mcol qcol).2.1[i]? =
              some ((parseCell parse c).map (fun d => d.month)))
        ∧ (∀ (i : Nat) (mo : Int),
            (extract_date_features parse orderdate ycol mcol qcol).2.1[i]? =
              some (some mo) → 1 ≤ mo ∧ mo ≤ 12))
    ∧ (qcol = none →
        (extract_date_features parse orderdate ycol mcol qcol).2.2.length =
            orderdate.length
        ∧ ∀ (i : Nat) (c : Option String), orderdate[i]? = some c →
            (extract_date_features parse orderdate ycol mcol qcol).2.2[i]? =
              some ((parseCell parse c).map
                (fun d => (d.month - 1) / 3 + 1))) := by
  refine ⟨?_, ?_, ?_, ?_, ?_, ?_⟩
  · intro ys hy
    subst hy
    rfl
  · intro ms hm
    subst hm
    cases ycol <;> rfl
  · intro qs hq
    subst hq
    cases ycol <;> cases mcol <;> rfl
  · intro hy
    subst hy
    constructor
    · simp [extract_date_features]
    · intro i c hi
      show ((orderdate.map (parseCell parse)).map
        (fun d => d.map (fun x => x.year)))[i]? = _
      rw [List.getElem?_map, List.getElem?_map, hi]
      rfl
  · intro hm
    subst hm
    have hout : (extract_date_features parse orderdate ycol none qcol).2.1 =
        (orderdate.map (parseCell parse)).map
          (fun d => d.map (fun x => x.month)) := by
      cases ycol <;> rfl
    rw [hout]
    refine ⟨by simp, ?_, ?_⟩
    · intro i c hi
      rw [List.getElem?_map, List.getElem?_map, hi]
      rfl
    · intro i mo hi
      rw [List.getElem?_map, List.getElem?_map] at hi
      rcases horder : orderdate[i]? with _ | c
      · rw [horder] at hi
        simp at hi
      · rw [horder] at hi
        simp only [Option.map_some'] at hi
        have hmo : (parseCell parse c).map (fun x => x.month) = some mo :=
          Option.some.inj hi
        rcases Option.map_eq_some'.mp hmo with ⟨d, _, hdm⟩
        exact ⟨hdm ▸ d.month_ge, hdm ▸ d.month_le⟩
  · intro hq
    subst hq
    have hout : (extract_date_features parse orderdate ycol mcol none).2.2 =
        (orderdate.map (parseCell parse)).map
          (fun d => d.map quarterOf) := by
      cases ycol <;> cases mcol <;> rfl
    rw [hout]
    refine ⟨by simp, ?_⟩
    intro i c hi
    rw [List.getElem?_map, List.getElem?_map, hi]
    rfl

/-- C4 witness: on a concrete column with a parseable, an unparseable and
a null cell, the derived YEAR_ID column is [2003, null, null]; a present
YEAR_ID column is returned untouched. -/
theorem extract_date_features_spec_witness :
    (extract_date_features parseW odW none none none).1 =
      [some 2003, none, none]
    ∧ (extract_date_features parseW odW (some [some 1999]) none none).1 =
      [some 1999] :=
  ⟨by simp [extract_date_features, parseW, odW, parseCell],
   (extract_date_features_spec parseW odW
     (some [some 1999]) none none).1 [some 1999] rfl⟩

/-! ### Numeric median fill (C6) -/

lemma sorted_getD_mono {s : List Rat} (hs : List.Sorted (· ≤ ·) s)
    {i k : Nat} (hik : i ≤ k) (hk : k < s.length) :
    s.getD i 0 ≤ s.getD k 0 := by
  rcases Nat.eq_or_lt_of_le hik with rfl | hlt
  · exact le_refl _
  · have hi : i < s.length := lt_trans hlt hk
    rw [List.getD_eq_getElem _ _ hi, List.getD_eq_getElem _ _ hk]
    exact hs.rel_get_of_lt hlt

lemma insertionSort_eq_of_perm {l l' : List Rat} (h : List.Perm l l') :
    List.insertionSort (· ≤ ·) l = List.insertionSort (· ≤ ·) l' :=
  List.eq_of_perm_of_sorted
    (((List.perm_insertionSort _ l).trans h).trans
      (List.perm_insertionSort _ l').symm)
    (List.sorted_insertionSort _ l) (List.sorted_insertionSort _ l')

lemma medianQ_perm {l l' : List Rat} (h : List.Perm l l') :
    medianQ l = medianQ l' := by
  unfold medianQ
  rw [insertionSort_eq_of_perm h, h.length_eq]

lemma orderedInsert_split (m : Rat) :
    ∀ (s : List Rat), List.Sorted (· ≤ ·) s →
      ∃ j, j ≤ s.length
        ∧ List.orderedInsert (· ≤ ·) m s = s.take j ++ m :: s.drop j
        ∧ (∀ i, i < j → s.getD i 0 < m)
        ∧ (∀ i, j ≤ i → i < s.length → m ≤ s.getD i 0) := by
  intro s
  induction s with
  | nil =>
    intro _
    exact ⟨0, Nat.le_refl 0, rfl,
      fun i hi => absurd hi (Nat.not_lt_zero i),
      fun i _ hi => absurd hi (Nat.not_lt_zero i)⟩
  | cons b t ih =>
    intro hs
    by_cases hmb : m ≤ b
    · refine ⟨0, Nat.zero_le _, ?_, ?_, ?_⟩
      · simp [List.orderedInsert, hmb]
      · intro i hi
        exact absurd hi (Nat.not_lt_zero i)
      · intro i _ hi
        cases i with
        | zero => simpa [List.getD_cons_zero] using hmb
        | succ i' =>
          rw [List.getD_cons_succ]
          have hi' : i' < t.length := by simpa using hi
          have hmem : t.getD i' 0 ∈ t := by
            rw [List.getD_eq_getElem _ _ hi']
            exact List.getElem_mem hi'
          exact le_trans hmb (List.rel_of_sorted_cons hs _ hmem)
    · obtain ⟨j, hjle, heq, hlt, hge⟩ := ih hs.of_cons
      have hbm : b < m := lt_of_not_le hmb
      refine ⟨j + 1, by simpa using hjle, ?_, ?_, ?_⟩
      · simp only [List.orderedInsert, if_neg hmb, heq,
          List.take_succ_cons, List.drop_succ_cons, List.cons_append]
      · intro i hi
        cases i with
        | zero => simpa [List.getD_cons_zero] using hbm
        | succ i' =>
          rw [List.getD_cons_succ]
          exact hlt i' (by omega)
      · intro i hge' hilen
        cases i with
        | zero => omega
        | succ i' =>
          rw [List.getD_cons_succ]
          exact hge i' (by omega) (by simpa using hilen)

lemma medianQ_cons_median (L : List Rat) (hL : L ≠ []) :
    medianQ (medianQ L :: L) = medianQ L := by
  have hsort := List.sorted_insertionSort (· ≤ ·) L
  set s := List.insertionSort (· ≤ ·) L with hs
  have hlen : s.length = L.length := List.length_insertionSort _ L
  have hnpos : 0 < L.length := List.length_pos.mpr hL
  set m := medianQ L with hmdef
  have hmval : m =
      if L.length % 2 = 1 then s.getD (L.length / 2) 0
      else (s.getD (L.length / 2 - 1) 0 + s.getD (L.length / 2) 0) / 2 := by
    rw [hmdef]
    unfold medianQ
    rw [← hs]
  obtain ⟨j, hjle, heq, hlt, hge⟩ := orderedInsert_split m s hsort
  have hjn : j ≤ L.length := by rw [← hlen]; exact hjle
  have htklen : (s.take j).length = j := by
    simp [List.length_take]
    omega
  have hu : List.insertionSort (· ≤ ·) (m :: L) = s.take j ++ m :: s.drop j := by
    show List.orderedInsert (· ≤ ·) m s = _
    exact heq
  have hua : ∀ i, i < j →
      (s.take j ++ m :: s.drop j).getD i 0 = s.getD i 0 := by
    intro i hij
    rw [List.getD_append _ _ _ _ (by omega)]
    rw [List.getD_eq_getElem?_getD, List.getD_eq_getElem?_getD,
      List.getElem?_take, if_pos hij]
  have hub : (s.take j ++ m :: s.drop j).getD j 0 = m := by
    rw [List.getD_append_right _ _ _ _ (by omega)]
    rw [show j - (s.take j).length = 0 from by omega, List.getD_cons_zero]
  have huc : ∀ i, j < i → i ≤ L.length →
      (s.take j ++ m :: s.drop j).getD i 0 = s.getD (i - 1) 0 := by
    intro i hji hin
    rw [List.getD_append_right _ _ _ _ (by omega)]
    rw [show i - (s.take j).length = (i - j - 1) + 1 from by omega,
      List.getD_cons_succ]
    have hidx : j + (i - j - 1) = i - 1 := by omega
    rw [List.getD_eq_getElem?_getD, List.getD_eq_getElem?_getD,
      List.getElem?_drop, hidx]
  unfold medianQ
  rw [hu]
  simp only [List.length_cons]
  by_cases hpar : L.length % 2 = 1
  · have hm2 : m = s.getD (L.length / 2) 0 := by rw [hmval, if_pos hpar]
    have hjh : j ≤ L.length / 2 := by
      by_contra hc
      push_neg at hc
      have hcon := hlt (L.length / 2) hc
      rw [← hm2] at hcon
      exact absurd hcon (lt_irrefl m)
    rw [if_neg (by omega)]
    rw [show (L.length + 1) / 2 - 1 = L.length / 2 from by omega,
      show (L.length + 1) / 2 = L.length / 2 + 1 from by omega]
    have hv2 : (s.take j ++ m :: s.drop j).getD (L.length / 2 + 1) 0 = m := by
      rw [huc (L.length / 2 + 1) (by omega) (by omega)]
      rw [show L.length / 2 + 1 - 1 = L.length / 2 from by omega]
      exact hm2.symm
    have hv1 : (s.take j ++ m :: s.drop j).getD (L.length / 2) 0 = m := by
      rcases Nat.eq_or_lt_of_le hjh with he | hjh'
      · rw [← he]
        exact hub
      · rw [huc (L.length / 2) hjh' (by omega)]
        have hge1 : m ≤ s.getD (L.length / 2 - 1) 0 :=
          hge (L.length / 2 - 1) (by omega) (by omega)
        have hle1 : s.getD (L.length / 2 - 1) 0 ≤ s.getD (L.length / 2) 0 :=
          sorted_getD_mono hsort (by omega) (by omega)
        rw [← hm2] at hle1
        exact le_antisymm hle1 hge1
    rw [hv1, hv2]
    ring
  · have hm2 : m = (s.getD (L.length / 2 - 1) 0 + s.getD (L.length / 2) 0) / 2 := by
      rw [hmval, if_neg hpar]
    have hab : s.getD (L.length / 2 - 1) 0 ≤ s.getD (L.length / 2) 0 :=
      sorted_getD_mono hsort (by omega) (by omega)
    have ham : s.getD (L.length / 2 - 1) 0 ≤ m := by
      rw [hm2]
      linarith
    have hmb : m ≤ s.getD (L.length / 2) 0 := by
      rw [hm2]
      linarith
    have hjh : j ≤ L.length / 2 := by
      by_contra hc
      push_neg at hc
      have hcon := hlt (L.length / 2) hc
      linarith
    rw [if_pos (by omega)]
    rw [show (L.length + 1) / 2 = L.length / 2 from by omega]
    rcases Nat.eq_or_lt_of_le hjh with he | hjh'
    · rw [← he]
      exact hub
    · rw [huc (L.length / 2) hjh' (by omega)]
      have hge1 : m ≤ s.getD (L.length / 2 - 1) 0 :=
        hge (L.length / 2 - 1) (by omega) (by omega)
      exact le_antisymm ham hge1

lemma medianQ_replicate_append (m : Rat) (L : List Rat)
    (hm : medianQ L = m) (hL : L ≠ []) :
    ∀ k, medianQ (List.replicate k m ++ L) = m := by
  intro k
  induction k with
  | zero => simpa using hm
  | succ t ih =>
    have h1 : List.replicate (t + 1) m ++ L = m :: (List.replicate t m ++ L) := by
      rw [List.replicate_succ]
      rfl
    rw [h1]
    have hne : List.replicate t m ++ L ≠ [] := by
      intro hc
      exact hL (List.append_eq_nil.mp hc).2
    have hstep := medianQ_cons_median (List.replicate t m ++ L) hne
    rw [ih] at hstep
    exact hstep

lemma filled_perm (mv : Rat) :
    ∀ col : List (Option Rat),
      List.Perm (col.map (fun x => x.getD mv))
        (col.filterMap id ++
          List.replicate (col.countP (fun x => x.isNone)) mv) := by
  intro col
  induction col with
  | nil => simp
  | cons x xs ih =>
    cases x with
    | some v =>
      simp only [List.map_cons, Option.getD_some, List.filterMap_cons,
        id_eq, List.countP_cons, Option.isNone_some, Bool.false_eq_true,
        if_false, Nat.add_zero, List.cons_append]
      exact List.Perm.cons v ih
    | none =>
      simp only [List.map_cons, Option.getD_none, List.filterMap_cons,
        id_eq, List.countP_cons, Option.isNone_none, if_true,
        List.replicate_succ]
      exact List.Perm.trans (List.Perm.cons mv ih) List.perm_middle.symm

lemma filterMap_map_some (f : Option Rat → Rat) :
    ∀ col : List (Option Rat),
      (col.map (fun x => some (f x))).filterMap id = col.map f := by
  intro col
  induction col with
  | nil => rfl
  | cons x xs ih => simp [ih]

/-- C6: on a numeric column with at least one non-null value, imputation
leaves no nulls, keeps non-null entries unchanged, fills every null with
the median of the original non-null values, and the median of the
resulting column equals that original median. -/
theorem handle_missing_numeric_spec (col : List (Option Rat))
    (h : col.filterMap id ≠ []) :
    (handle_missing_numeric col).length = col.length
    ∧ (∀ x ∈ handle_missing_numeric col, x.isSome)
    ∧ (∀ (i : Nat) (v : Rat), col[i]? = some (some v) →
        (handle_missing_numeric col)[i]? = some (some v))
    ∧ (∀ i : Nat, col[i]? = some none →
        (handle_missing_numeric col)[i]? =
          some (some (medianQ (col.filterMap id))))
    ∧ medianQ ((handle_missing_numeric col).filterMap id) =
        medianQ (col.filterMap id) := by
  unfold handle_missing_numeric
  by_cases hany : col.any (fun x => x.isNone)
  · rw [if_pos hany, if_neg (by simpa [List.isEmpty_iff] using h)]
    refine ⟨by simp, ?_, ?_, ?_, ?_⟩
    · intro x hx
      rcases List.mem_map.mp hx with ⟨c, _, rfl⟩
      rfl
    · intro i v hi
      rw [List.getElem?_map, hi]
      rfl
    · intro i hi
      rw [List.getElem?_map, hi]
      rfl
    · rw [filterMap_map_some]
      rw [medianQ_perm (filled_perm (medianQ (col.filterMap id)) col)]
      rw [medianQ_perm List.perm_append_comm]
      exact medianQ_replicate_append (medianQ (col.filterMap id))
        (col.filterMap id) rfl h _
  · rw [if_neg hany]
    rw [Bool.not_eq_true, List.any_eq_false] at hany
    refine ⟨rfl, ?_, ?_, ?_, rfl⟩
    · intro x hx
      have := hany x hx
      cases x with
      | some v => rfl
      | none => simp at this
    · intro i v hi
      exact hi
    · intro i hi
      exfalso
      have hmem : (none : Option Rat) ∈ col := List.getElem?_mem hi
      simpa using hany none hmem

/-- C6 witness: the column [1, null, 3]; the non-null median is 2, the
null is filled with 2 and the median of the filled column is still 2. -/
theorem handle_missing_numeric_spec_witness :
    ([some 1, none, some 3] : List (Option Rat)).filterMap id ≠ []
    ∧ handle_missing_numeric [some 1, none, some 3] =
        [some 1, some 2, some 3]
    ∧ medianQ ((handle_missing_numeric [some 1, none, some 3]).filterMap id) =
        medianQ (([some 1, none, some 3] :
          List (Option Rat)).filterMap id) := by
  refine ⟨?_, ?_, ?_⟩
  · intro hc
    simp at hc
  · norm_num [handle_missing_numeric, medianQ, List.insertionSort,
      List.orderedInsert, List.filterMap_cons, List.filterMap_nil,
      List.any_cons, List.any_nil]
  · exact (handle_missing_numeric_spec [some 1, none, some 3]
      (by intro hc; simp at hc)).2.2.2.2

end SalesDashboard
